import Mathlib

/-!
Shallow embedding of three subsystems of the sj817/tsx repository:

* the const-enum knowledge base and inlining transform
  (src/utils/transform/const-enum-transformer.ts),
* the dynamic tsconfig paths matcher (src/utils/tsconfig.ts),
* the CommonJS resolve-filename coordinator
  (src/cjs/api/module-resolve-filename/index.ts).

External collaborators (the filesystem, the oxc parser, the Node path
module, the host resolver, get-tsconfig) are modelled as explicit
parameters supplied to the embedded functions.  Strings are manipulated
through their underlying character lists so that every definition is
executable and every concrete statement decidable.
-/

namespace Tsx

/-- A primitive enum value.  The source stores `string | number` member
values; numbers are modelled as integers (each claim only exercises
integer values, and the auto-increment rule is integral). -/
inductive Value where
  | num (n : Int)
  | str (s : String)
deriving DecidableEq, Repr

/-- Character-level JSON escaping for the two characters
`JSON.stringify` must escape in the member names this model handles. -/
def jsonEscapeChar (c : Char) : List Char :=
  if c = '"' ∨ c = '\\' then ['\\', c] else [c]

/-- `JSON.stringify` on an enum value. -/
def jsonStringify : Value → String
  | .num n => toString n
  | .str s => "\"" ++ String.mk ((s.data.map jsonEscapeChar).flatten) ++ "\""

/-- Inverse of the escaping above. -/
def jsonUnescape : List Char → List Char
  | [] => []
  | '\\' :: c :: rest => c :: jsonUnescape rest
  | c :: rest => c :: jsonUnescape rest

/-- Decimal digit accumulator for the integer parser. -/
def parseNatAux : List Char → Nat → Option Nat
  | [], acc => some acc
  | c :: rest, acc =>
    if c.isDigit then parseNatAux rest (acc * 10 + (c.toNat - 48)) else none

/-- Integer literal parser (the numeric side of `JSON.parse`). -/
def parseIntStr (s : String) : Option Int :=
  match s.data with
  | [] => none
  | '-' :: rest =>
    if rest.isEmpty then none else (parseNatAux rest 0).map (fun n => -(n : Int))
  | cs => (parseNatAux cs 0).map Int.ofNat

/-- `JSON.parse` restricted to the two value shapes `jsonStringify`
produces: a quoted string or an integer literal. -/
def jsonParseValue (s : String) : Except Unit Value :=
  let cs := s.data
  if cs.length ≥ 2 ∧ cs.head? = some '"' ∧ cs.getLast? = some '"' then
    .ok (.str (String.mk (jsonUnescape ((cs.drop 1).dropLast))))
  else
    match parseIntStr s with
    | some n => .ok (.num n)
    | none => .error ()

/-! ## String and path utilities -/

/-- JavaScript regex word character `\w`. -/
def isWordChar (c : Char) : Bool := c.isAlphanum || c = '_'

/-- First index of `c` in the list, if any. -/
def firstIdxAux (c : Char) : List Char → Nat → Option Nat
  | [], _ => none
  | x :: xs, i => if x = c then some i else firstIdxAux c xs (i+1)

/-- Last index of `c` in the list, if any. -/
def lastIdxAux (c : Char) : List Char → Nat → Option Nat → Option Nat
  | [], _, acc => acc
  | x :: xs, i, acc => lastIdxAux c xs (i+1) (if x = c then some i else acc)

/-- All indexes of `c` in the list. -/
def charIdxsAux (c : Char) : List Char → Nat → List Nat
  | [], _ => []
  | x :: xs, i =>
    if x = c then i :: charIdxsAux c xs (i+1) else charIdxsAux c xs (i+1)

def strStartsWith (s pre : String) : Bool := pre.data.isPrefixOf s.data

def strEndsWith (s suf : String) : Bool := suf.data.isSuffixOf s.data

/-- Substring containment scan (JavaScript `String.prototype.includes`). -/
def containsSubAux (needle hay : List Char) : Nat → Nat → Bool
  | 0, _ => false
  | fuel+1, i =>
    if i + needle.length > hay.length then false
    else if needle.isPrefixOf (hay.drop i) then true
    else containsSubAux needle hay fuel (i+1)

def strIncludes (s sub : String) : Bool :=
  containsSubAux sub.data s.data (s.data.length + 1) 0

/-- All match positions of the regex `\b<needle>\b` over `hay`, scanned
left to right; after a match the scan resumes past the matched text
(JavaScript `RegExp.exec` with the `g` flag advancing `lastIndex`). -/
def findWordAux (needle hay : List Char) : Nat → Nat → List Nat
  | 0, _ => []
  | fuel+1, i =>
    if i + needle.length > hay.length then []
    else if needle.isPrefixOf (hay.drop i)
        && (decide (i = 0) || !isWordChar (hay.getD (i-1) ' '))
        && (decide (i + needle.length ≥ hay.length)
            || !isWordChar (hay.getD (i + needle.length) ' ')) then
      i :: findWordAux needle hay fuel (i + needle.length)
    else
      findWordAux needle hay fuel (i+1)

def findWord (needle hay : List Char) : List Nat :=
  findWordAux needle hay (hay.length + 1) 0

/-- One MagicString `update`: replace the half-open range of the
original text starting at `start` and stopping at `stop`. -/
structure Edit where
  start : Nat
  stop : Nat
  repl : List Char
deriving DecidableEq, Repr

def insertEdit (e : Edit) : List Edit → List Edit
  | [] => [e]
  | x :: xs => if e.start < x.start then e :: x :: xs else x :: insertEdit e xs

def sortEdits : List Edit → List Edit
  | [] => []
  | e :: es => insertEdit e (sortEdits es)

def applyEditsAux (code : List Char) : Nat → List Edit → List Char
  | pos, [] => code.drop pos
  | pos, e :: es =>
    (code.drop pos).take (e.start - pos) ++ e.repl ++ applyEditsAux code e.stop es

/-- Apply MagicString edits (given in any order, ranges disjoint in every
run this model takes) to the original text. -/
def applyEdits (code : List Char) (es : List Edit) : String :=
  String.mk (applyEditsAux code 0 (sortEdits es))

/-- POSIX `path.dirname` for the canonical (no trailing slash) paths this
development uses. -/
def dirname (p : String) : String :=
  match lastIdxAux '/' p.data 0 none with
  | none => "."
  | some 0 => "/"
  | some i => String.mk (p.data.take i)

/-- `path.join dir file` for a single file segment. -/
def joinPath (dir file : String) : String :=
  if strEndsWith dir "/" then dir ++ file else dir ++ "/" ++ file

/-- Split a character list on a separator character. -/
def splitCharAux (sep : Char) : List Char → List Char → List String
  | [], cur => [String.mk cur.reverse]
  | c :: rest, cur =>
    if c = sep then String.mk cur.reverse :: splitCharAux sep rest []
    else splitCharAux sep rest (c :: cur)

def splitChar (sep : Char) (s : String) : List String :=
  splitCharAux sep s.data []

/-- Join segments with a separator string. -/
def joinWith (sep : String) : List String → String
  | [] => ""
  | [s] => s
  | s :: rest => s ++ sep ++ joinWith sep rest

/-- Normalisation of absolute path segments: drop empty and `.` segments
and resolve `..` against the accumulated stack. -/
def normSegs : List String → List String → List String
  | acc, [] => acc.reverse
  | acc, "" :: rest => normSegs acc rest
  | acc, "." :: rest => normSegs acc rest
  | acc, ".." :: rest => normSegs (acc.drop 1) rest
  | acc, seg :: rest => normSegs (seg :: acc) rest

/-- POSIX `path.resolve dir rel` for an absolute `dir` (the only case the
claims exercise; a relative `dir` would involve the process working
directory, which is outside the modelled fragment). -/
def resolvePath (dir rel : String) : String :=
  let full := if strStartsWith rel "/" then rel else dir ++ "/" ++ rel
  "/" ++ joinWith "/" (normSegs [] (splitChar '/' full))

/-- Query-preservation split: divide a request at its first question
mark.  Modelled from the spec (§4.3, preserve-query is not among the
provided sources): the query is extracted once and reattached byte for
byte after resolution. -/
def splitQuery (request : String) : String × Option String :=
  match firstIdxAux '?' request.data 0 with
  | none => (request, none)
  | some i =>
    (String.mk (request.data.take i), some (String.mk (request.data.drop (i+1))))

/-- Reattach a held query string to a resolved path. -/
def appendQuery (resolved : String) : Option String → String
  | none => resolved
  | some q => resolved ++ "?" ++ q

/-- Modelled from the spec: `URLSearchParams.get` over the raw query
text, for the `namespace` tag check of the coordinator (§4.4 step 4);
percent decoding is outside the modelled fragment. -/
def paramsGet (query : Option String) (key : String) : Option String :=
  match query with
  | none => none
  | some qs =>
    (splitChar '&' qs).findSome? fun kv =>
      match splitChar '=' kv with
      | [] => none
      | k :: vs => if k = key then some (joinWith "=" vs) else none

/-! ## Language classification (const-enum-transformer.ts) -/

/-- The `\.d\.[cm]?ts` core of `REGEX_DTS`. -/
def dtsCore (s : String) : Bool :=
  strEndsWith s ".d.ts" || strEndsWith s ".d.cts" || strEndsWith s ".d.mts"

/-- `isDts`: the filename matches `\.d\.[cm]?ts(\?.*)?$` — either the
name ends with a declaration extension or some question mark in it is
immediately preceded by one. -/
def isDts (s : String) : Bool :=
  dtsCore s
  || (charIdxsAux '?' s.data 0).any (fun i => dtsCore (String.mk (s.data.take i)))

/-- Node `path.extname`: the final dot suffix of the last path segment
(a leading dot in the segment yields no extension). -/
def extname (s : String) : String :=
  let base :=
    match lastIdxAux '/' s.data 0 none with
    | none => s.data
    | some i => s.data.drop (i+1)
  match lastIdxAux '.' base 0 none with
  | none => ""
  | some 0 => ""
  | some i => String.mk (base.drop i)

/-- `getLang`: `dts` for declaration files, otherwise the extension name
with its leading dot and any query suffix stripped. -/
def getLang (filename : String) : String :=
  if isDts filename then "dts"
  else
    let e := extname filename
    let e := match e.data with
      | '.' :: rest => String.mk rest
      | _ => e
    match firstIdxAux '?' e.data 0 with
    | none => e
    | some i => String.mk (e.data.take i)

/-- `isTs`: the language is `dts` or matches `^[cm]?tsx?$`. -/
def isTs (lang : String) : Bool :=
  lang == "dts" || ["ts", "tsx", "cts", "ctsx", "mts", "mtsx"].contains lang

/-! ## Enum data model and AST (const-enum-transformer.ts) -/

/-- An enum member key: an `Identifier` name, a string-literal key (the
source coerces it with `String(value)`), or any other node shape (the
source falls back to the empty string). -/
inductive MemberId where
  | ident (name : String)
  | strLit (value : String)
  | otherId
deriving DecidableEq, Repr

def memberKey : MemberId → String
  | .ident n => n
  | .strLit v => v
  | .otherId => ""

/-- A binary-expression operand: a literal, a member expression carrying
the source text `content.slice(start, end)` the transformer reads, or
any other node shape (rejected with an unsupported-operand error). -/
inductive Operand where
  | literal (v : Value)
  | memberExpr (text : String)
  | otherNode (typeName : String)
deriving DecidableEq, Repr

/-- A unary-expression argument: a literal, or any other node shape
(rejected with an unsupported-argument error). -/
inductive UnaryArg where
  | literal (v : Value)
  | otherNode (typeName : String)
deriving DecidableEq, Repr

/-- The initializer shapes distinguished by the `switch` in
`parseConstEnumsFromAST`; every other shape lands in the `default`
branch and is `unsupported`. -/
inductive InitExpr where
  | literal (v : Value)
  | binary (op : String) (left right : Operand)
  | unary (op : String) (arg : UnaryArg)
  | unsupported (typeName : String)
deriving DecidableEq, Repr

structure MemberNode where
  id : MemberId
  initializer : Option InitExpr
deriving DecidableEq, Repr

structure EnumMember where
  name : String
  value : Value
deriving DecidableEq, Repr

structure EnumDeclaration where
  id : String
  members : List EnumMember
deriving DecidableEq, Repr

/-- `EnumData`: the declarations of one file plus its `defines` table
mapping `Enum.Member` keys to JSON-stringified values. -/
structure EnumData where
  declarations : List EnumDeclaration
  defines : List (String × String)
deriving DecidableEq, Repr

def emptyEnumData : EnumData := ⟨[], []⟩

/-- Import-statement specifiers, restricted to the shapes the transform
inspects (`ImportNamespaceSpecifier`, `ImportSpecifier`); default
specifiers fall through both branches of the source and are ignored. -/
inductive ImportSpec where
  | nsSpec (localName : String)
  | namedSpec (imported localName : String)
  | defaultSpec
deriving DecidableEq, Repr

/-- Top-level AST nodes, restricted to the shapes the two walks of the
source inspect: a node satisfying the full `export const enum`
conjunction of checks, an import declaration, and everything else
(including non-exported or non-const enums, which the source skips). -/
inductive AstNode where
  | exportConstEnum (id : String) (members : List MemberNode)
  | importDecl (source : String) (specifiers : List ImportSpec)
  | otherNode
deriving DecidableEq, Repr

abbrev Program := List AstNode

/-- The external collaborators of the transformer: `fs.existsSync`,
`fs.readFileSync` (which may throw), and the `parseSync` entry point of
oxc-parser (which throws on syntax errors), keyed by file path and file
content. -/
structure TransformEnv where
  fsExists : String → Bool
  fsRead : String → Except Unit String
  parse : String → String → Except Unit Program

/-! ## Enum extraction (parseConstEnumsFromAST) -/

/-- `resolveValue` inside the binary-expression branch: a literal is
used directly; a member expression is looked up by its source text in
the running `defines` table (a miss is the unresolved-reference error)
and the stored JSON is parsed back; any other operand is unsupported. -/
def resolveOperand (defines : List (String × String)) : Operand → Except Unit Value
  | .literal v => .ok v
  | .memberExpr text =>
    match defines.lookup text with
    | some j => jsonParseValue j
    | none => .error ()
  | .otherNode _ => .error ()

/-- The `evaluate` helper of the source builds the textual expression
`left ++ op ++ right` and evaluates it as JavaScript.  Modelled
fragment: integer `+`, `-` and `*`.  A string operand is interpolated
unquoted into the expression text, which is a reference error at
evaluation time, and the remaining numeric operators leave the integer
fragment (division and float results, 32-bit coercions); both are
modelled as errors, which the file-level boundary treats like any other
extraction failure. -/
def evalBinary : Value → String → Value → Except Unit Value
  | .num a, "+", .num b => .ok (.num (a + b))
  | .num a, "-", .num b => .ok (.num (a - b))
  | .num a, "*", .num b => .ok (.num (a * b))
  | _, _, _ => .error ()

/-- Unary initializers over a literal argument, same modelled fragment. -/
def evalUnary : String → Value → Except Unit Value
  | "-", .num a => .ok (.num (-a))
  | "+", .num a => .ok (.num a)
  | _, _ => .error ()

/-- State threaded through the member loop of one declaration:
`lastInitialized`, the members collected so far, and the file-wide
`defines` table (shared across the declarations of one file). -/
structure DeclState where
  lastInitialized : Option Value
  members : List EnumMember
  defines : List (String × String)
deriving DecidableEq, Repr

/-- The value produced for one member: the `switch` over the
initializer shapes, and the no-initializer default/auto-increment rule
over `lastInitialized` — `0` when it is still undefined, previous plus
one when numeric, a type error when non-numeric. -/
def memberValue (defines : List (String × String)) (lastInit : Option Value) :
    Option InitExpr → Except Unit Value
  | some (.literal v) => .ok v
  | some (.binary op l r) => do
    let lv ← resolveOperand defines l
    let rv ← resolveOperand defines r
    evalBinary lv op rv
  | some (.unary op arg) =>
    match arg with
    | .literal v => evalUnary op v
    | .otherNode _ => .error ()
  | some (.unsupported _) => .error ()
  | none =>
    match lastInit with
    | none => .ok (Value.num 0)
    | some (.num n) => .ok (Value.num (n + 1))
    | some (.str _) => .error ()

/-- One iteration of the member loop.  Every branch that produces a
value ends in `saveValue`, which appends the member and its
JSON-stringified value under `EnumId.MemberName`, and leaves
`lastInitialized` at the value just produced. -/
def processMember (enumId : String) (st : DeclState) (m : MemberNode) :
    Except Unit DeclState :=
  let key := memberKey m.id
  let fullKey := enumId ++ "." ++ key
  match memberValue st.defines st.lastInitialized m.initializer with
  | .error e => .error e
  | .ok value =>
    .ok ⟨some value, st.members ++ [⟨key, value⟩],
         st.defines ++ [(fullKey, jsonStringify value)]⟩

/-- The member loop of one `export const enum` declaration, started with
an undefined `lastInitialized` and the defines collected so far. -/
def processDecl (defines0 : List (String × String)) (id : String)
    (ms : List MemberNode) :
    Except Unit (List EnumMember × List (String × String)) := do
  let st ← ms.foldlM (processMember id) ⟨none, [], defines0⟩
  .ok (st.members, st.defines)

/-- The walk over the program body: every `export const enum` node adds
a declaration and extends the shared defines table; other nodes are
skipped.  An error anywhere aborts the walk (the thrown exception of the
source propagates out of the loop). -/
def processProgram (prog : Program) : Except Unit EnumData := do
  let res ← prog.foldlM
    (fun (acc : List EnumDeclaration × List (String × String)) node =>
      match node with
      | .exportConstEnum id ms => do
        let (mems, defs) ← processDecl acc.2 id ms
        .ok (acc.1 ++ [⟨id, mems⟩], defs)
      | _ => .ok acc)
    ([], [])
  .ok ⟨res.1, res.2⟩

/-- The body of the `try` block of `parseConstEnumsFromAST` (everything
that can throw): existence probe, read, language filter, parse,
extraction walk.  A missing or non-TypeScript file yields the empty
entry without error. -/
def parseConstEnumsBody (env : TransformEnv) (filePath : String) :
    Except Unit EnumData := do
  if !env.fsExists filePath then
    .ok emptyEnumData
  else do
    let content ← env.fsRead filePath
    if !isTs (getLang filePath) then
      .ok emptyEnumData
    else do
      let prog ← env.parse filePath content
      processProgram prog

/-- The process-lifetime cache `constEnumCache`, keyed by file path. -/
abbrev EnumCache := List (String × EnumData)

/-- `parseConstEnumsFromAST`: cache check, then the guarded body; any
thrown error is caught at the file boundary and the empty entry is
cached instead.  The source writes the cache at each internal return;
every path stores exactly one entry for `filePath`, modelled as a single
insertion. -/
def parseConstEnumsFromAST (env : TransformEnv) (cache : EnumCache)
    (filePath : String) : EnumData × EnumCache :=
  match cache.lookup filePath with
  | some d => (d, cache)
  | none =>
    match parseConstEnumsBody env filePath with
    | .ok d => (d, (filePath, d) :: cache)
    | .error _ => (emptyEnumData, (filePath, emptyEnumData) :: cache)

/-! ## Enum inlining transform (transformConstEnum) -/

/-- `resolveEnumPath`: both source branches resolve the import against
the importing directory (the bare-specifier branch is the same
expression today, per its comment), then the extension candidates are
collected in order and filtered by existence. -/
def resolveEnumPath (env : TransformEnv) (importPath currentFile : String) :
    List String :=
  let currentDir := dirname currentFile
  let resolved := resolvePath currentDir importPath
  let candidates :=
    [resolved ++ ".d.ts", resolved ++ ".ts",
     resolved ++ "/index.d.ts", resolved ++ "/index.ts"]
    ++ (if strEndsWith resolved ".js" then
          let withoutJs := String.mk (resolved.data.take (resolved.data.length - 3))
          [withoutJs ++ ".d.ts", withoutJs ++ ".ts"]
        else [])
  candidates.filter env.fsExists

/-- The extension filter `\.[cm]?[jt]sx?$` at the top of the transform. -/
def transformableExt (filePath : String) : Bool :=
  [".js", ".jsx", ".ts", ".tsx", ".cjs", ".cjsx", ".cts", ".ctsx",
   ".mjs", ".mjsx", ".mts", ".mtsx"].any (strEndsWith filePath)

/-- All edits of one `pattern.exec` loop: each whole-word occurrence of
`needle` in `code` is replaced by the JSON value annotated with a
trailing comment carrying the matched text. -/
def memberEdits (code : List Char) (needle : String) (v : Value) : List Edit :=
  (findWord needle.data code).map fun i =>
    ⟨i, i + needle.data.length,
     (jsonStringify v ++ " /* " ++ needle ++ " */").data⟩

/-- Edits contributed by one import specifier against one enum file:
a namespace import scans `alias.Enum.Member` for every declaration and
member; a named import scans `local.Member` for the members of the first
declaration whose id equals the imported name. -/
def specEdits (code : List Char) (d : EnumData) : ImportSpec → List Edit
  | .nsSpec aliasName =>
    d.declarations.flatMap fun decl =>
      decl.members.flatMap fun mem =>
        memberEdits code (aliasName ++ "." ++ decl.id ++ "." ++ mem.name) mem.value
  | .namedSpec imported localName =>
    match d.declarations.find? (fun decl => decl.id == imported) with
    | some decl =>
      decl.members.flatMap fun mem =>
        memberEdits code (localName ++ "." ++ mem.name) mem.value
    | none => []
  | .defaultSpec => []

/-- Edits contributed by one import declaration: each resolved enum file
is fetched through the cached knowledge base and scanned per specifier.
The dead local `allDefines` table of the source has no observable effect
and is omitted. -/
def importEdits (env : TransformEnv) (code : List Char) (filePath : String)
    (cache : EnumCache) (source : String) (specs : List ImportSpec) :
    List Edit × EnumCache :=
  (resolveEnumPath env source filePath).foldl
    (fun (acc : List Edit × EnumCache) enumFile =>
      let (d, cache') := parseConstEnumsFromAST env acc.2 enumFile
      (acc.1 ++ specs.flatMap (specEdits code d), cache'))
    ([], cache)

/-- `transformConstEnum`, threading the module-level enum cache
explicitly.  The returned string is the rewritten code
(`magicString.toString()`); the source-map object MagicString builds
alongside it is outside the modelled fragment.  A parse error of the
importing file is caught by the surrounding try/catch and yields no
rewrite. -/
def transformConstEnum (env : TransformEnv) (cache : EnumCache)
    (filePath code : String) : Option String × EnumCache :=
  if !transformableExt filePath then (none, cache)
  else if !strIncludes code "import " then (none, cache)
  else
    match env.parse filePath code with
    | .error _ => (none, cache)
    | .ok prog =>
      let res := prog.foldl
        (fun (acc : List Edit × EnumCache) node =>
          match node with
          | .importDecl src specs =>
            let (es, c') := importEdits env code.data filePath acc.2 src specs
            (acc.1 ++ es, c')
          | _ => acc)
        ([], cache)
      if res.1.isEmpty then (none, res.2)
      else (some (applyEdits code.data res.1), res.2)

/-! ## Dynamic tsconfig paths matcher (src/utils/tsconfig.ts) -/

/-- Outcome of `parseTsconfig` followed by `createPathsMatcher` for one
config path (both from the external get-tsconfig library): the parse may
throw, the matcher may be null when the config has no `paths`, or a
matcher function plus the `allowJs` flag is produced. -/
inductive ParseOutcome where
  | throwsErr
  | noMatcher
  | matcher (m : String → List String) (allowJs : Bool)

/-- External collaborators of the dynamic matcher: `fs.accessSync`
success (a throw is caught inside the walk and treated as absence) and
the config parsing pipeline above. -/
structure TsconfigEnv where
  fsAccess : String → Bool
  parseCfg : String → ParseOutcome

/-- The process-lifetime `tsconfigCache`, keyed by the starting search
directory; `none` is the cached no-config sentinel (`null` in the
source). -/
abbrev TsconfigCache := List (String × Option ((String → List String) × Bool))

/-- The upward `while` walk of `createDynamicPathsMatcher`: probe
`dir/tsconfig.json` while the directory differs from its own parent (so
the filesystem root itself is never probed), stepping to the parent on
absence.  Fuel bounds the walk; callers pass more fuel than the chain
can be long. -/
def findTsconfigAux (acc : String → Bool) : Nat → String → Option String
  | 0, _ => none
  | fuel+1, dir =>
    if dir = dirname dir then none
    else
      let cfg := joinPath dir "tsconfig.json"
      if acc cfg then some cfg
      else findTsconfigAux acc fuel (dirname dir)

/-- The closure returned by `createDynamicPathsMatcher`, with the
module-level cache and the static fallback matcher passed explicitly.
A missing or empty `fromFile` falls back to the static matcher without
touching the cache; otherwise the cache for `dirname fromFile` is
consulted, the walk runs on a miss, and the outcome — matcher or
no-config sentinel — is cached under the original starting directory
before being applied. -/
def dynamicPathsMatcher (env : TsconfigEnv)
    (staticMatcher : Option (String → List String))
    (cache : TsconfigCache) (specifier : String) (fromFile : Option String) :
    List String × TsconfigCache :=
  let fallback := match staticMatcher with
    | some m => m specifier
    | none => []
  match fromFile with
  | none => (fallback, cache)
  | some f =>
    if f = "" then (fallback, cache)
    else
      let searchDir := dirname f
      match cache.lookup searchDir with
      | some (some c) => (c.1 specifier, cache)
      | some none => ([], cache)
      | none =>
        match findTsconfigAux env.fsAccess (searchDir.length + 2) searchDir with
        | none => ([], (searchDir, none) :: cache)
        | some cfgPath =>
          match env.parseCfg cfgPath with
          | .throwsErr => ([], (searchDir, none) :: cache)
          | .noMatcher => ([], (searchDir, none) :: cache)
          | .matcher m aj => (m specifier, (searchDir, some (m, aj)) :: cache)

/-! ## Resolve-filename coordinator (src/cjs/api/module-resolve-filename) -/

/-- Modelled from the spec: the file-URL scheme prefix a request may
carry (path-utils is not among the provided sources). -/
def fileUrlPrefix : String := "file://"

/-- Modelled from the spec: `fileURLToPath` for plain file URLs — strip
the scheme; percent decoding is outside the modelled fragment. -/
def fileURLToPath (u : String) : String := String.mk (u.data.drop 7)

/-- Modelled from the spec: `isFilePath` — a relative or absolute path
request; everything else is a bare specifier (glossary: a bare specifier
is neither relative nor absolute). -/
def isFilePath (r : String) : Bool :=
  strStartsWith r "./" || strStartsWith r "../" || strStartsWith r "/"

/-- Modelled from the spec: the dependency-installation directory marker
`nodeModulesPath` tested against the requesting filename. -/
def nodeModulesPath : String := "/node_modules/"

/-- The requesting module, as far as the coordinator reads it. -/
structure Parent where
  filename : Option String
deriving DecidableEq

/-- A simple resolver over one request string; errors model the thrown
module-not-found failures of the host. -/
abbrev Resolver := String → Except String String

/-- The `parent?.filename?.includes(nodeModulesPath)` test (undefined
parent or filename is falsy and does not exclude alias resolution). -/
def parentInNodeModules (parent : Option Parent) : Bool :=
  match parent with
  | some p =>
    match p.filename with
    | some f => strIncludes f nodeModulesPath
    | none => false
  | none => false

/-- The `possiblePaths` computation of `resolveTsPaths`: the dynamic
matcher is consulted first when a requesting filename is available (a
thrown error is caught and leaves the list empty), and the static
matcher is the fallback only when the list is still empty (also guarded
by a catch). -/
def possibleAliasPaths
    (dynM : String → String → Except Unit (List String))
    (statM : Option (String → Except Unit (List String)))
    (request : String) (parent : Option Parent) : List String :=
  let dynPaths :=
    match parent with
    | some p =>
      match p.filename with
      | some f =>
        if f = "" then []
        else
          match dynM request f with
          | .ok l => l
          | .error _ => []
      | none => []
    | none => []
  if dynPaths.length = 0 then
    match statM with
    | some m =>
      match m request with
      | .ok l => l
      | .error _ => []
    | none => []
  else dynPaths

/-- The candidate loop: try each alias candidate through the layered
resolver, returning the first success and discarding failures silently;
when the list is exhausted the fallback resolution is used. -/
def tryCandidates (next : Resolver) :
    List String → Except String String → Except String String
  | [], fallback => fallback
  | p :: rest, fallback =>
    match next p with
    | .ok r => .ok r
    | .error _ => tryCandidates next rest fallback

/-- `resolveTsPaths`: normalise a file URL, and for a bare specifier
whose requesting file is not inside a dependency-installation directory
run the alias candidates through the layered resolver before falling
back to the original request. -/
def resolveTsPaths
    (dynM : String → String → Except Unit (List String))
    (statM : Option (String → Except Unit (List String)))
    (request : String) (parent : Option Parent) (next : Resolver) :
    Except String String :=
  let request :=
    if strStartsWith request fileUrlPrefix then fileURLToPath request else request
  if !isFilePath request && !parentInNodeModules parent then
    tryCandidates next (possibleAliasPaths dynM statM request parent) (next request)
  else
    next request

/-- Modelled from the spec: the `.js`/`.jsx` request rewritten to its
`.ts`/`.tsx` sibling (§4.3, resolve-ts-extensions is not among the
provided sources). -/
def tsSibling (r : String) : Option String :=
  if strEndsWith r ".js" then
    some (String.mk (r.data.take (r.data.length - 3)) ++ ".ts")
  else if strEndsWith r ".jsx" then
    some (String.mk (r.data.take (r.data.length - 4)) ++ ".tsx")
  else none

/-- Modelled from the spec: the explicit statically-typed-extension
resolver (§4.3) — each strategy calls its inner resolver and catches a
not-found failure before trying its own candidates; when active and the
request ends in `.js`/`.jsx` the corresponding sibling is tried, and the
original failure is re-thrown when nothing succeeds. -/
def tsExtensionResolver (active : Bool) (next : Resolver) : Resolver := fun r =>
  match next r with
  | .ok v => .ok v
  | .error e =>
    if active then
      match tsSibling r with
      | some sib =>
        match next sib with
        | .ok v => .ok v
        | .error _ => .error e
      | none => .error e
    else .error e

/-- Modelled from the spec: the implicit-extension resolver (§4.3) —
inner resolver first; on failure probe `.ts`, `.tsx`, `.cts`, `.mts`,
then directory `index.*`, re-throwing the original failure when none
succeeds. -/
def implicitResolver (next : Resolver) : Resolver := fun r =>
  match next r with
  | .ok v => .ok v
  | .error e =>
    tryCandidates next
      [r ++ ".ts", r ++ ".tsx", r ++ ".cts", r ++ ".mts",
       r ++ "/index.ts", r ++ "/index.tsx"] (.error e)

/-- The loader toggle consulted by the hook. -/
structure LoaderState where
  enabled : Bool

/-- Modelled from the spec: the requesting file has a statically-typed
extension (`tsExtensionsPattern` of path-utils). -/
def parentIsTs (parent : Option Parent) : Bool :=
  match parent with
  | some p =>
    match p.filename with
    | some f => [".ts", ".tsx", ".mts", ".cts"].any (strEndsWith f)
    | none => false
  | none => false

/-- The namespace argument is truthy (a present, non-empty string). -/
def nsActive : Option String → Bool
  | some s => s ≠ ""
  | none => false

/-- The hook returned by `createResolveFilename`.  The host resolver
(closed over the passthrough arguments) is `host`; `interop` models the
`interopCjsExports` request normalisation, an external helper the spec
only describes as edge-case normalisation.  Pipeline: disabled toggle,
interop normalisation, query extraction, namespace tag check, layering
of the two extension resolvers over the host, alias resolution, query
reattachment. -/
def resolveFilename
    (interop : String → String)
    (state : LoaderState)
    (dynM : String → String → Except Unit (List String))
    (statM : Option (String → Except Unit (List String)))
    (host : String → Option Parent → Except String String)
    (ns : Option String)
    (request : String) (parent : Option Parent) : Except String String :=
  if state.enabled = false then host request parent
  else
    let request := interop request
    let split := splitQuery request
    if paramsGet split.2 "namespace" ≠ ns then host request parent
    else
      let base : Resolver := fun r => host r parent
      let withTsExt := tsExtensionResolver (nsActive ns || parentIsTs parent) base
      let layered := implicitResolver withTsExt
      match resolveTsPaths dynM statM split.1 parent layered with
      | .ok p => .ok (appendQuery p split.2)
      | .error e => .error e

/-! ## The walk chain

`ChainTo dir pre dB` records that the upward walk started at `dir`
passes exactly through the directories of `pre` (each different from its
own parent, each stepping to its parent) before reaching `dB`. -/

inductive ChainTo : String → List String → String → Prop
  | refl (d : String) : ChainTo d [] d
  | step (d : String) (pre : List String) (dB : String) :
      d ≠ dirname d → ChainTo (dirname d) pre dB → ChainTo d (d :: pre) dB

/-! ## Concrete instances used by the counterexamples and witnesses -/

/-- Declaring file of the inlining example: an exported const enum `C`
with the single auto-valued member `R`. -/
def eDtsContent : String := "export const enum C \x7b R \x7d"

def eProg : Program := [.exportConstEnum "C" [⟨.ident "R", none⟩]]

/-- The importing file before inlining. -/
def c1code0 : String := "import * as L from \"./e\"\nL.C.R"

/-- Its output after one pass: the reference is inlined to `0` with the
original expression kept in a trailing comment. -/
def c1code1 : String := "import * as L from \"./e\"\n0 /* L.C.R */"

/-- The output of a second pass: the reference inside the annotation
comment is matched and rewritten again, nesting the comment. -/
def c1code2 : String := "import * as L from \"./e\"\n0 /* 0 /* L.C.R */ */"

/-- Both importing versions parse to the same program: the import of
`./e` with a namespace specifier `L`, followed by one expression
statement. -/
def c1Prog : Program := [.importDecl "./e" [.nsSpec "L"], .otherNode]

/-- Environment of the inlining example: the declaring file
`/p/e.d.ts` and the importing file `/p/m.ts` exist; parsing succeeds on
exactly the three well-formed contents above. -/
def c1Env : TransformEnv :=
  { fsExists := fun p => p == "/p/e.d.ts" || p == "/p/m.ts"
    fsRead := fun p => if p == "/p/e.d.ts" then .ok eDtsContent else .error ()
    parse := fun _ content =>
      if content == eDtsContent then .ok eProg
      else if content == c1code0 then .ok c1Prog
      else if content == c1code1 then .ok c1Prog
      else .error () }

/-- Declaring file with two exported const enums: `A` whose only member
has an unsupported initializer shape (a call expression), and a
well-formed `B`. -/
def c2Content : String :=
  "export const enum A \x7b X = f() \x7d\nexport const enum B \x7b Y = 1 \x7d"

def c2Prog : Program :=
  [.exportConstEnum "A" [⟨.ident "X", some (.unsupported "CallExpression")⟩],
   .exportConstEnum "B" [⟨.ident "Y", some (.literal (.num 1))⟩]]

def c2Env : TransformEnv :=
  { fsExists := fun p => p == "/a/e.ts"
    fsRead := fun p => if p == "/a/e.ts" then .ok c2Content else .error ()
    parse := fun _ content => if content == c2Content then .ok c2Prog else .error () }

/-- The spec example `const enum Color { Red, Green = 5, Blue }`. -/
def c4Content : String := "export const enum Color \x7b Red, Green = 5, Blue \x7d"

def c4Prog : Program :=
  [.exportConstEnum "Color"
    [⟨.ident "Red", none⟩, ⟨.ident "Green", some (.literal (.num 5))⟩,
     ⟨.ident "Blue", none⟩]]

def c4Env : TransformEnv :=
  { fsExists := fun p => p == "/c/color.ts"
    fsRead := fun p => if p == "/c/color.ts" then .ok c4Content else .error ()
    parse := fun _ content => if content == c4Content then .ok c4Prog else .error () }

/-- Environment with one file whose parse always fails (a syntax
error), for the failure-boundary witness. -/
def c6Env : TransformEnv :=
  { fsExists := fun p => p == "/b/broken.ts"
    fsRead := fun p => if p == "/b/broken.ts" then .ok "const x =" else .error ()
    parse := fun _ _ => .error () }

def c6ImportingCode : String := "import \"./broken\"\nconst y = 1"

/-- Nested-workspace layout: package A at `/w` and package B at `/w/b`
both carry a tsconfig with paths; a request originates at
`/w/b/src/f.ts`. -/
def c3MatcherB : String → List String := fun s => ["/w/b/lib/" ++ s]

def c3MatcherA : String → List String := fun s => ["/w/a-lib/" ++ s]

def c3Env : TsconfigEnv :=
  { fsAccess := fun p => p == "/w/b/tsconfig.json" || p == "/w/tsconfig.json"
    parseCfg := fun p =>
      if p == "/w/b/tsconfig.json" then .matcher c3MatcherB false
      else if p == "/w/tsconfig.json" then .matcher c3MatcherA false
      else .throwsErr }

/-- Layout whose only tsconfig parses with an error, for the sentinel
witness: a config exists at `/q/tsconfig.json` but parsing throws. -/
def c7Env : TsconfigEnv :=
  { fsAccess := fun p => p == "/q/tsconfig.json"
    parseCfg := fun _ => .throwsErr }

/-- Layout whose only tsconfig sits in the filesystem root itself. -/
def c10Env : TsconfigEnv :=
  { fsAccess := fun p => p == "/tsconfig.json"
    parseCfg := fun _ => .matcher (fun s => ["/root-lib/" ++ s]) false }

/-- Matchers and resolvers for the coordinator witnesses. -/
def wDynM : String → String → Except Unit (List String) :=
  fun _ _ => .ok ["/alias/from-dynamic.ts"]

def wStatM : Option (String → Except Unit (List String)) :=
  some (fun _ => .ok ["/alias/from-static.ts"])

def wNext : Resolver := fun r => .ok ("resolved:" ++ r)

def wHost : String → Option Parent → Except String String :=
  fun r _ => if r == "./mod" then .ok "/app/mod.js" else .error "MODULE_NOT_FOUND"

deriving instance DecidableEq for Except

/-! ## Theorems -/

/-- C1 counterexample: on the example file the first pass rewrites
(`some c1code1`), and the second pass on that already-inlined output
rewrites again instead of returning `none` — the whole-word scan over
the raw text matches the reference kept inside the annotation comment. -/
theorem c1_transform_second_pass_counterexample :
    (transformConstEnum c1Env [] "/p/m.ts" c1code0).1 = some c1code1
    ∧ (transformConstEnum c1Env
        (transformConstEnum c1Env [] "/p/m.ts" c1code0).2
        "/p/m.ts" c1code1).1 ≠ none := by
  decide

/-- C1 amended: a second pass over already-inlined output is not a
no-op — the annotation comment still carries the qualified reference
text, the scan matches it, and the reference inside the comment is
inlined again (nesting the comment). -/
theorem c1_second_pass_rewrites_annotations :
    (transformConstEnum c1Env
        (transformConstEnum c1Env [] "/p/m.ts" c1code0).2
        "/p/m.ts" c1code1).1 = some c1code2 := by
  decide

/-- C2 counterexample: in a file whose first exported const enum has an
unsupported initializer, the well-formed second enum `B` is *not*
extracted — the returned entry is entirely empty — even though `B`
alone extracts to `Y = 1`. -/
theorem c2_whole_file_aborted_counterexample :
    (parseConstEnumsFromAST c2Env [] "/a/e.ts").1.declarations = []
    ∧ (parseConstEnumsFromAST c2Env [] "/a/e.ts").1.defines = []
    ∧ processDecl [] "B" [⟨.ident "Y", some (.literal (.num 1))⟩]
        = .ok ([⟨"Y", .num 1⟩], [("B.Y", "1")]) := by
  decide

/-- C2 amended: an extraction error anywhere in a file (an unsupported
initializer shape, or auto-increment after a non-numeric value) aborts
extraction for the *entire declaring file*: the returned and cached
entry is empty, so the members of every other exported const enum in
the same file are lost as well. -/
theorem c2_error_empties_whole_file_entry
    (env : TransformEnv) (cache : EnumCache) (fp : String)
    (hMiss : cache.lookup fp = none)
    (hfail : parseConstEnumsBody env fp = .error ()) :
    parseConstEnumsFromAST env cache fp
      = (emptyEnumData, (fp, emptyEnumData) :: cache) := by
  unfold parseConstEnumsFromAST
  rw [hMiss, hfail]

/-- Witness for the amended C2 statement at the two-enum example file. -/
theorem c2_error_empties_whole_file_entry_witness :
    parseConstEnumsFromAST c2Env [] "/a/e.ts"
      = (emptyEnumData, [("/a/e.ts", emptyEnumData)]) :=
  c2_error_empties_whole_file_entry c2Env [] "/a/e.ts" (by decide) (by decide)

/-- C4: extracting the exported `const enum Color { Red, Green = 5,
Blue }` yields `Red=0, Green=5, Blue=6`; in general a member with no
initializer takes `0` while `lastInitialized` is still undefined, takes
the previous numeric value plus one otherwise, and `lastInitialized` is
defined after every successfully processed member (so the undefined
case happens exactly at the first member of a declaration). -/
theorem c4_color_extraction_and_autoincrement :
    (parseConstEnumsFromAST c4Env [] "/c/color.ts").1
      = ⟨[⟨"Color", [⟨"Red", .num 0⟩, ⟨"Green", .num 5⟩, ⟨"Blue", .num 6⟩]⟩],
         [("Color.Red", "0"), ("Color.Green", "5"), ("Color.Blue", "6")]⟩
    ∧ (∀ (eid : String) (mid : MemberId) (mems : List EnumMember)
          (defs : List (String × String)),
        processMember eid ⟨none, mems, defs⟩ ⟨mid, none⟩
          = .ok ⟨some (.num 0), mems ++ [⟨memberKey mid, .num 0⟩],
                 defs ++ [(eid ++ "." ++ memberKey mid, "0")]⟩)
    ∧ (∀ (eid : String) (mid : MemberId) (n : Int) (mems : List EnumMember)
          (defs : List (String × String)),
        processMember eid ⟨some (.num n), mems, defs⟩ ⟨mid, none⟩
          = .ok ⟨some (.num (n + 1)), mems ++ [⟨memberKey mid, .num (n + 1)⟩],
                 defs ++ [(eid ++ "." ++ memberKey mid,
                           jsonStringify (.num (n + 1)))]⟩)
    ∧ (∀ (eid : String) (st : DeclState) (m : MemberNode) (st' : DeclState),
        processMember eid st m = .ok st' → st'.lastInitialized.isSome = true) := by
  refine ⟨by decide, fun eid mid mems defs => rfl, fun eid mid n mems defs => rfl, ?_⟩
  intro eid st m st' h
  simp only [processMember] at h
  cases hv : memberValue st.defines st.lastInitialized m.initializer with
  | error e => rw [hv] at h; cases h
  | ok v => rw [hv] at h; injection h with h; subst h; rfl

/-- Witness for the general auto-increment and definedness rules of C4
at a concrete state. -/
theorem c4_color_extraction_and_autoincrement_witness :
    processMember "Color" ⟨some (.num 5), [], []⟩ ⟨.ident "Blue", none⟩
      = .ok ⟨some (.num 6), [⟨"Blue", .num 6⟩], [("Color.Blue", "6")]⟩
    ∧ (⟨some (.num 6), [⟨"Blue", .num 6⟩], [("Color.Blue", "6")]⟩
        : DeclState).lastInitialized.isSome = true := by
  constructor
  · exact c4_color_extraction_and_autoincrement.2.2.1 "Color" (.ident "Blue") 5 [] []
  · exact c4_color_extraction_and_autoincrement.2.2.2 "Color"
      ⟨some (.num 5), [], []⟩ ⟨.ident "Blue", none⟩ _
      (c4_color_extraction_and_autoincrement.2.2.1 "Color" (.ident "Blue") 5 [] [])

/-- C6: an extraction failure (unsupported shape, unresolved reference,
syntax or read error — anything that makes the guarded body throw) is
caught at the file boundary: `parseConstEnumsFromAST` returns the empty
entry and caches it, a second call for the same file is answered from
the cache without recomputation, and a parse failure of the importing
file makes the transform return no rewrite instead of throwing. -/
theorem c6_failures_caught_at_file_boundary
    (env env2 : TransformEnv) (cache cache2 : EnumCache) (fp fp2 code : String)
    (hMiss : cache.lookup fp = none)
    (hfail : parseConstEnumsBody env fp = .error ())
    (hext : transformableExt fp2 = true)
    (himp : strIncludes code "import " = true)
    (hparse : env2.parse fp2 code = .error ()) :
    parseConstEnumsFromAST env cache fp
      = (emptyEnumData, (fp, emptyEnumData) :: cache)
    ∧ parseConstEnumsFromAST env ((fp, emptyEnumData) :: cache) fp
        = (emptyEnumData, (fp, emptyEnumData) :: cache)
    ∧ transformConstEnum env2 cache2 fp2 code = (none, cache2) := by
  refine ⟨?_, ?_, ?_⟩
  · unfold parseConstEnumsFromAST
    rw [hMiss, hfail]
  · unfold parseConstEnumsFromAST
    simp [List.lookup]
  · simp [transformConstEnum, hext, himp, hparse]

/-- Witness for C6 at a file whose parse always fails. -/
theorem c6_failures_caught_at_file_boundary_witness :
    parseConstEnumsFromAST c6Env [] "/b/broken.ts"
      = (emptyEnumData, [("/b/broken.ts", emptyEnumData)])
    ∧ parseConstEnumsFromAST c6Env [("/b/broken.ts", emptyEnumData)] "/b/broken.ts"
        = (emptyEnumData, [("/b/broken.ts", emptyEnumData)])
    ∧ transformConstEnum c6Env [] "/b/imp.ts" c6ImportingCode = (none, []) :=
  c6_failures_caught_at_file_boundary c6Env c6Env [] [] "/b/broken.ts"
    "/b/imp.ts" c6ImportingCode (by decide) (by decide) (by decide) (by decide)
    (by decide)

/-- `dirname` never yields the empty string: its three branches produce
`.`, `/`, or a nonempty prefix of a nonempty character list. -/
theorem dirname_ne_empty (p : String) : dirname p ≠ "" := by
  unfold dirname
  cases h : lastIdxAux '/' p.data 0 none with
  | none =>
    show ("." : String) ≠ ""
    decide
  | some i =>
    cases i with
    | zero =>
      show ("/" : String) ≠ ""
      decide
    | succ j =>
      show String.mk (p.data.take (j+1)) ≠ ""
      intro heq
      have hd : p.data.take (j+1) = [] := congrArg String.data heq
      rcases List.take_eq_nil_iff.mp hd with h0 | hnil
      · exact absurd h0 (by omega)
      · rw [hnil] at h
        exact absurd h (by simp [lastIdxAux])

/-- When no nonempty directory that the walk can probe (one differing
from its own parent) carries a tsconfig, the walk finds nothing, for
any fuel and any nonempty start. -/
theorem findTsconfigAux_none_of_no_cfg (acc : String → Bool)
    (h : ∀ d, d ≠ "" → d ≠ dirname d → acc (joinPath d "tsconfig.json") = false) :
    ∀ (fuel : Nat) (dir : String), dir ≠ "" → findTsconfigAux acc fuel dir = none := by
  intro fuel
  induction fuel with
  | zero => intro dir _; rfl
  | succ n ih =>
    intro dir hdir
    unfold findTsconfigAux
    by_cases hd : dir = dirname dir
    · rw [if_pos hd]
    · rw [if_neg hd]
      show (if acc (joinPath dir "tsconfig.json") = true
            then some (joinPath dir "tsconfig.json")
            else findTsconfigAux acc n (dirname dir)) = none
      rw [h dir hdir hd, if_neg (by simp)]
      exact ih (dirname dir) (dirname_ne_empty dir)

/-- The walk started at `dir` returns the config of the first directory
along the parent chain that carries one: with `pre` the config-free
directories crossed first and `dB` the carrying directory, any
sufficient fuel yields `dB`'s config path. -/
theorem findTsconfigAux_chain (acc : String → Bool) {dir : String}
    {pre : List String} {dirB : String}
    (hchain : ChainTo dir pre dirB)
    (hpre : ∀ d ∈ pre, acc (joinPath d "tsconfig.json") = false)
    (hBne : dirB ≠ dirname dirB)
    (hBacc : acc (joinPath dirB "tsconfig.json") = true) :
    ∀ fuel, pre.length < fuel →
      findTsconfigAux acc fuel dir = some (joinPath dirB "tsconfig.json") := by
  induction hchain with
  | refl d =>
    intro fuel hf
    match fuel, hf with
    | n + 1, _ =>
      unfold findTsconfigAux
      rw [if_neg hBne]
      show (if acc (joinPath d "tsconfig.json") = true
            then some (joinPath d "tsconfig.json")
            else findTsconfigAux acc n (dirname d))
          = some (joinPath d "tsconfig.json")
      rw [hBacc, if_pos rfl]
  | step d pre dB hne hch ih =>
    intro fuel hf
    match fuel, hf with
    | n + 1, hf =>
      unfold findTsconfigAux
      rw [if_neg hne]
      have hd := hpre d (List.mem_cons_self d pre)
      have hrest : ∀ x ∈ pre, acc (joinPath x "tsconfig.json") = false :=
        fun x hx => hpre x (List.mem_cons_of_mem d hx)
      show (if acc (joinPath d "tsconfig.json") = true
            then some (joinPath d "tsconfig.json")
            else findTsconfigAux acc n (dirname d))
          = some (joinPath dB "tsconfig.json")
      rw [hd, if_neg (by simp)]
      simp only [List.length_cons] at hf
      exact ih hrest hBne hBacc n (by omega)

/-- C3: for a request from a file in nested package B, the dynamic
matcher uses exactly the nearest tsconfig found walking upward from the
requesting directory — here B's config, reached after the config-free
chain `pre` — and the produced candidates come from B's matcher alone,
whatever configuration any ancestor (such as an enclosing package A)
carries. -/
theorem c3_nearest_tsconfig_scopes_aliases
    (env : TsconfigEnv) (statM : Option (String → List String))
    (cache : TsconfigCache) (spec f : String) (pre : List String)
    (dirB : String) (m : String → List String) (aj : Bool)
    (hf : f ≠ "")
    (hMiss : cache.lookup (dirname f) = none)
    (hchain : ChainTo (dirname f) pre dirB)
    (hpre : ∀ d ∈ pre, env.fsAccess (joinPath d "tsconfig.json") = false)
    (hBne : dirB ≠ dirname dirB)
    (hBacc : env.fsAccess (joinPath dirB "tsconfig.json") = true)
    (hfuel : pre.length < (dirname f).length + 2)
    (hparse : env.parseCfg (joinPath dirB "tsconfig.json") = .matcher m aj) :
    dynamicPathsMatcher env statM cache spec (some f)
      = (m spec, (dirname f, some (m, aj)) :: cache) := by
  have hfind := findTsconfigAux_chain env.fsAccess hchain hpre hBne hBacc
    ((dirname f).length + 2) hfuel
  simp [dynamicPathsMatcher, hf, hMiss, hfind, hparse]

/-- Witness for C3: package A at `/w` and nested package B at `/w/b`
both carry configs; a request from `/w/b/src/f.ts` crosses the
config-free `/w/b/src`, stops at B's config, and resolves through B's
matcher (A's matcher would have produced `/w/a-lib/@x/y`). -/
theorem c3_nearest_tsconfig_scopes_aliases_witness :
    dynamicPathsMatcher c3Env none [] "@x/y" (some "/w/b/src/f.ts")
      = (["/w/b/lib/@x/y"], [("/w/b/src", some (c3MatcherB, false))]) := by
  have hchain : ChainTo (dirname "/w/b/src/f.ts") ["/w/b/src"] "/w/b" := by
    have h1 : dirname "/w/b/src/f.ts" = "/w/b/src" := by decide
    have h2 : dirname "/w/b/src" = "/w/b" := by decide
    rw [h1]
    exact ChainTo.step "/w/b/src" [] "/w/b" (by decide)
      (by rw [h2]; exact ChainTo.refl "/w/b")
  have h := c3_nearest_tsconfig_scopes_aliases c3Env none [] "@x/y"
    "/w/b/src/f.ts" ["/w/b/src"] "/w/b" c3MatcherB false (by decide) rfl
    hchain (by decide) (by decide) (by decide) (by decide) rfl
  simpa using h

/-- C7: when the walk finds no config, or the found config fails to
parse or yields no paths matcher, the dynamic matcher caches the
no-config sentinel keyed by the original starting directory alone (the
cache gains exactly the one entry for `dirname fromFile`), returns the
empty candidate list, and — being a total function — propagates no
exception to its caller. -/
theorem c7_failure_caches_sentinel_returns_empty
    (env : TsconfigEnv) (statM : Option (String → List String))
    (cache : TsconfigCache) (spec f : String)
    (hf : f ≠ "")
    (hMiss : cache.lookup (dirname f) = none)
    (hfail :
      findTsconfigAux env.fsAccess ((dirname f).length + 2) (dirname f) = none
      ∨ ∃ cfg,
          findTsconfigAux env.fsAccess ((dirname f).length + 2) (dirname f)
            = some cfg
          ∧ (env.parseCfg cfg = .throwsErr ∨ env.parseCfg cfg = .noMatcher)) :
    dynamicPathsMatcher env statM cache spec (some f)
      = ([], (dirname f, none) :: cache) := by
  rcases hfail with hnone | ⟨cfg, hsome, hp | hp⟩
  · simp [dynamicPathsMatcher, hf, hMiss, hnone]
  · simp [dynamicPathsMatcher, hf, hMiss, hsome, hp]
  · simp [dynamicPathsMatcher, hf, hMiss, hsome, hp]

/-- Witness for C7: `/q/tsconfig.json` exists but parsing throws; the
request from `/q/src/f.ts` yields no candidates and the sentinel is
cached for `/q/src` only. -/
theorem c7_failure_caches_sentinel_returns_empty_witness :
    dynamicPathsMatcher c7Env none [] "@x/y" (some "/q/src/f.ts")
      = ([], [("/q/src", none)]) := by
  have h := c7_failure_caches_sentinel_returns_empty c7Env none [] "@x/y"
    "/q/src/f.ts" (by decide) rfl
    (Or.inr ⟨"/q/tsconfig.json", by decide, Or.inl rfl⟩)
  simpa using h

/-- C10: the upward walk probes only directories that differ from their
own parent, so a tsconfig lying in the filesystem root itself is never
found: in a layout whose only config is `/tsconfig.json`, the walk
returns nothing and the dynamic matcher caches the no-config sentinel
for the starting directory and yields no candidates. -/
theorem c10_root_tsconfig_never_found
    (env : TsconfigEnv) (statM : Option (String → List String))
    (cache : TsconfigCache) (spec f : String)
    (hf : f ≠ "")
    (hMiss : cache.lookup (dirname f) = none)
    (hLayout : ∀ d, d ≠ "" → d ≠ dirname d →
        env.fsAccess (joinPath d "tsconfig.json") = false)
    (hRoot : env.fsAccess "/tsconfig.json" = true) :
    findTsconfigAux env.fsAccess ((dirname f).length + 2) (dirname f) = none
    ∧ dynamicPathsMatcher env statM cache spec (some f)
        = ([], (dirname f, none) :: cache) := by
  have hnone := findTsconfigAux_none_of_no_cfg env.fsAccess hLayout
    ((dirname f).length + 2) (dirname f) (dirname_ne_empty f)
  exact ⟨hnone, by simp [dynamicPathsMatcher, hf, hMiss, hnone]⟩

/-- No nonempty directory other than the root joins with
`tsconfig.json` to the root config path. -/
theorem joinPath_root_cfg {d : String}
    (hne : d ≠ "") (hd : d ≠ dirname d) :
    joinPath d "tsconfig.json" ≠ "/tsconfig.json" := by
  intro heq
  unfold joinPath at heq
  by_cases hs : strEndsWith d "/"
  · rw [if_pos hs] at heq
    have h2 : d.data ++ "tsconfig.json".data = "/".data ++ "tsconfig.json".data := by
      have h3 := congrArg String.data heq
      rw [String.data_append] at h3
      simpa using h3
    have hdv : d = "/" := congrArg String.mk (List.append_cancel_right h2)
    rw [hdv] at hd
    exact hd (by decide)
  · rw [if_neg hs] at heq
    have h2 : (d.data ++ "/".data) ++ "tsconfig.json".data
        = ([] ++ "/".data) ++ "tsconfig.json".data := by
      have h3 := congrArg String.data heq
      rw [String.data_append, String.data_append] at h3
      simpa using h3
    have h4 : d.data ++ "/".data = [] ++ "/".data := List.append_cancel_right h2
    have h5 : d.data = [] := List.append_cancel_right h4
    exact hne (congrArg String.mk h5)

/-- Witness for C10: the only config of the layout sits at
`/tsconfig.json` and is never reached from `/a/b.ts`. -/
theorem c10_root_tsconfig_never_found_witness :
    findTsconfigAux c10Env.fsAccess ((dirname "/a/b.ts").length + 2)
        (dirname "/a/b.ts") = none
    ∧ dynamicPathsMatcher c10Env none [] "@x/y" (some "/a/b.ts")
        = ([], [("/a", none)]) := by
  have h := c10_root_tsconfig_never_found c10Env none [] "@x/y" "/a/b.ts"
    (by decide) rfl
    (fun d hne hd => by
      show (joinPath d "tsconfig.json" == "/tsconfig.json") = false
      exact beq_eq_false_iff_ne.mpr (joinPath_root_cfg hne hd))
    rfl
  simpa using h

/-- C5: for a bare specifier with a requesting parent file outside any
dependency directory, `resolveTsPaths` resolves the alias candidates in
order through the layered resolver with the original request as the
final fallback; the candidates come from the dynamic matcher when it
yields any, the static matcher is consulted only when the dynamic
matcher yields zero candidates (or throws), and the candidate loop
returns the first success while silently discarding failures. -/
theorem c5_alias_resolution_order
    (dynM : String → String → Except Unit (List String))
    (statM : Option (String → Except Unit (List String)))
    (request f : String) (next : Resolver)
    (hbare : isFilePath request = false)
    (hnotUrl : strStartsWith request fileUrlPrefix = false)
    (hf : f ≠ "")
    (hnm : strIncludes f nodeModulesPath = false) :
    resolveTsPaths dynM statM request (some ⟨some f⟩) next
      = tryCandidates next
          (possibleAliasPaths dynM statM request (some ⟨some f⟩))
          (next request)
    ∧ (∀ l, dynM request f = .ok l → l ≠ [] →
        possibleAliasPaths dynM statM request (some ⟨some f⟩) = l)
    ∧ ((dynM request f = .ok [] ∨ dynM request f = .error ()) →
        possibleAliasPaths dynM statM request (some ⟨some f⟩)
          = (match statM with
             | some m =>
               match m request with
               | .ok l => l
               | .error _ => []
             | none => []))
    ∧ (∀ (p : String) (ps : List String) (fb : Except String String) (r : String),
        next p = .ok r → tryCandidates next (p :: ps) fb = .ok r)
    ∧ (∀ (p : String) (ps : List String) (fb : Except String String) (e : String),
        next p = .error e → tryCandidates next (p :: ps) fb = tryCandidates next ps fb)
    ∧ tryCandidates next [] (next request) = next request := by
  refine ⟨?_, ?_, ?_, ?_, ?_, rfl⟩
  · simp [resolveTsPaths, parentInNodeModules, hnotUrl, hbare, hnm]
  · intro l hl hne
    simp [possibleAliasPaths, hf, hl, hne]
  · rintro (h | h) <;> simp [possibleAliasPaths, hf, h]
  · intro p ps fb r h
    simp [tryCandidates, h]
  · intro p ps fb e h
    simp [tryCandidates, h]

/-- Witness for C5: a dynamic matcher yielding one candidate from a
plain source file; the candidate list is exactly the dynamic result. -/
theorem c5_alias_resolution_order_witness :
    resolveTsPaths wDynM wStatM "@lib/foo" (some ⟨some "/app/src/a.ts"⟩) wNext
      = tryCandidates wNext
          (possibleAliasPaths wDynM wStatM "@lib/foo" (some ⟨some "/app/src/a.ts"⟩))
          (wNext "@lib/foo")
    ∧ possibleAliasPaths wDynM wStatM "@lib/foo" (some ⟨some "/app/src/a.ts"⟩)
        = ["/alias/from-dynamic.ts"] := by
  have h := c5_alias_resolution_order wDynM wStatM "@lib/foo" "/app/src/a.ts"
    wNext (by decide) (by decide) (by decide) (by decide)
  exact ⟨h.1, h.2.1 ["/alias/from-dynamic.ts"] rfl (by decide)⟩

/-- C9: when the requesting file lies inside a dependency-installation
directory, `resolveTsPaths` performs no alias resolution at all — the
result is exactly the fallback resolution of the original request, for
every dynamic and static matcher configuration alike, so workspace
aliases never leak into dependency code. -/
theorem c9_node_modules_parent_bypasses_aliases
    (dynM : String → String → Except Unit (List String))
    (statM : Option (String → Except Unit (List String)))
    (request f : String) (next : Resolver)
    (hnotUrl : strStartsWith request fileUrlPrefix = false)
    (hnm : strIncludes f nodeModulesPath = true) :
    resolveTsPaths dynM statM request (some ⟨some f⟩) next = next request := by
  simp [resolveTsPaths, parentInNodeModules, hnotUrl, hnm]

/-- Witness for C9: a request from inside `node_modules` with matchers
that would otherwise produce candidates still resolves as the plain
fallback. -/
theorem c9_node_modules_parent_bypasses_aliases_witness :
    resolveTsPaths wDynM wStatM "pkg"
      (some ⟨some "/app/node_modules/dep/index.js"⟩) wNext
      = wNext "pkg" :=
  c9_node_modules_parent_bypasses_aliases wDynM wStatM "pkg"
    "/app/node_modules/dep/index.js" wNext (by decide) (by decide)

/-- C8: a request the host resolver can resolve without any alias
applying comes back from the coordinator exactly as the host resolved
the clean request, with the held query string reattached byte for byte
by `appendQuery`. -/
theorem c8_unaliased_request_returns_host_result_with_query
    (interop : String → String) (state : LoaderState)
    (dynM : String → String → Except Unit (List String))
    (statM : Option (String → Except Unit (List String)))
    (host : String → Option Parent → Except String String)
    (ns : Option String) (request : String) (parent : Option Parent) (p : String)
    (henabled : state.enabled = true)
    (hinterop : interop request = request)
    (hns : paramsGet (splitQuery request).2 "namespace" = ns)
    (hnotUrl : strStartsWith (splitQuery request).1 fileUrlPrefix = false)
    (hnoAlias : possibleAliasPaths dynM statM (splitQuery request).1 parent = []
        ∨ isFilePath (splitQuery request).1 = true
        ∨ parentInNodeModules parent = true)
    (hhost : host (splitQuery request).1 parent = .ok p) :
    resolveFilename interop state dynM statM host ns request parent
      = .ok (appendQuery p (splitQuery request).2) := by
  have hlay : ∀ b : Bool,
      implicitResolver (tsExtensionResolver b (fun r => host r parent))
        (splitQuery request).1 = .ok p := by
    intro b
    simp [implicitResolver, tsExtensionResolver, hhost]
  have hres : resolveTsPaths dynM statM (splitQuery request).1 parent
      (implicitResolver (tsExtensionResolver (nsActive ns || parentIsTs parent)
        (fun r => host r parent))) = .ok p := by
    rcases hnoAlias with h | h | h
    · simp [resolveTsPaths, hnotUrl, h, tryCandidates, hlay]
    · simp [resolveTsPaths, hnotUrl, h, hlay]
    · simp [resolveTsPaths, hnotUrl, h, hlay]
  simp [resolveFilename, henabled, hinterop, hns, hres]

/-- Witness for C8 on the spec example `./mod?raw`: the path resolves
ignoring the query and the result still carries `?raw`. -/
theorem c8_unaliased_request_returns_host_result_with_query_witness :
    resolveFilename id ⟨true⟩ wDynM wStatM wHost none "./mod?raw"
      (some ⟨some "/app/main.ts"⟩) = .ok "/app/mod.js?raw" := by
  have h := c8_unaliased_request_returns_host_result_with_query id ⟨true⟩
    wDynM wStatM wHost none "./mod?raw" (some ⟨some "/app/main.ts"⟩)
    "/app/mod.js" rfl rfl (by decide) (by decide)
    (Or.inr (Or.inl (by decide))) (by decide)
  exact h.trans (by decide)

end Tsx
